import Mathlib

/-!
Verification development for the `search_engine` crawler (`crawler.py`).

The Python source is shallowly embedded: pure functions become Lean
functions on `String` / `List Char`, the shared mutable state of the
multithreaded crawl (`visited`, `start_urls`, `html_queue`, `result_dict`,
`vote_counts`) becomes an explicit record, and the interleaving of the
fetcher threads and the processor thread becomes a step function driven by
an explicit schedule of atomic actions (each action corresponds to one
lock-protected region or one blocking call of the Python code).

Python floats are modelled as rationals; the weight values exercised here
(0.1, 0.25, 1.0, and single-addition sums with 0.0) are exact in binary
floating point, so no float-rounding behaviour is hidden by this choice.
Python `str` operations are modelled on `List Char`, restricted to the
ASCII inputs the crawler manipulates.
-/

abbrev Url := String

/-! ## URL parsing helpers (urllib.parse, restricted to absolute http/https URLs) -/

/-- Characters that end the netloc portion of a URL, as in
`urllib.parse`: the netloc runs from after `//` up to `/`, `?` or `#`. -/
def netlocEnd (c : Char) : Bool :=
  c = '/' || c = '?' || c = '#'

/-- Splits `scheme://rest` into `(scheme, rest)`; `none` when the string
has no `://`.  Models `urllib.parse.urlparse`'s scheme/netloc split for
the absolute http/https URLs this crawler works with. -/
def splitSchemeRest (cs : List Char) : Option (List Char × List Char) :=
  go [] cs
where
  go (acc : List Char) : List Char → Option (List Char × List Char)
    | [] => none
    | c :: rest =>
      if c = ':' then
        match rest with
        | '/' :: '/' :: tail => some (acc, tail)
        | _ => none
      else go (acc ++ [c]) rest

/-- The scheme of an absolute URL (empty when there is no `://`). -/
def urlSchemeChars (cs : List Char) : List Char :=
  match splitSchemeRest cs with
  | some (sch, _) => sch
  | none => []

/-- The netloc of an absolute URL (empty when there is no `://`). -/
def urlNetlocChars (cs : List Char) : List Char :=
  match splitSchemeRest cs with
  | some (_, rest) => rest.takeWhile (fun c => !netlocEnd c)
  | none => []

/-- Python `str.split('.')`: always nonempty, `""` splits to `[""]`. -/
def splitOnDot : List Char → List (List Char)
  | [] => [[]]
  | c :: rest =>
    let r := splitOnDot rest
    if c = '.' then [] :: r
    else
      match r with
      | h :: t => (c :: h) :: t
      | [] => [[c]]

/-- Python `'.'.join(parts)`. -/
def joinDots : List (List Char) → List Char
  | [] => []
  | [x] => x
  | x :: xs => x ++ '.' :: joinDots xs

/-- Embeds `crawler.rootURL` (lines 31-34):
`urlunparse((scheme, netloc, '/', '', '', ''))`, i.e. `scheme://netloc/`. -/
def rootURL (url : String) : String :=
  match splitSchemeRest url.data with
  | some (sch, rest) =>
    String.mk (sch ++ "://".data ++ rest.takeWhile (fun c => !netlocEnd c) ++ "/".data)
  | none => "/"

/-- Embeds `crawler.get_site_root` (lines 36-42): scheme plus the last
two dot-separated labels of the netloc. -/
def get_site_root (url : String) : String :=
  let parts := splitOnDot (urlNetlocChars url.data)
  let parts := if parts.length > 2 then parts.drop (parts.length - 2) else parts
  String.mk (urlSchemeChars url.data ++ "://".data ++ joinDots parts)

/-! ## Vote weighting -/

/-- Python `a.endswith(b)`. -/
def pyEndsWith (s suf : String) : Bool :=
  suf.data.isSuffixOf s.data

/-- Embeds `crawler.calculate_vote_weight` (lines 157-163).  Weights are
rationals standing for the Python floats `0.1`, `0.25`, `1`. -/
def calculate_vote_weight (current_root target_root : String) : ℚ :=
  if current_root = target_root then 0.1
  else if pyEndsWith target_root ("." ++ current_root)
       || pyEndsWith current_root ("." ++ target_root) then 0.25
  else 1

/-! ## HTTP fetching with retry (crawl_site, get_robots_txt)

The `requests` collaborator is modelled by an oracle giving the outcome of
each GET attempt.  `requests.get` either returns a response (with a status
code and body) or raises a `RequestException` (connection failure,
timeout); `raise_for_status()` raises a `RequestException` on any 4xx/5xx
status.  The four cases distinguished by `crawl_site` are: -/

inductive HttpResult where
  /-- a 2xx response whose `.text` is `body` (`raise_for_status` passes) -/
  | ok (body : String)
  /-- a 429 Too Many Requests response -/
  | tooMany
  /-- any other 4xx/5xx response: `raise_for_status()` raises -/
  | httpError
  /-- `requests.get` itself raises (connection failure, timeout) -/
  | netError
deriving DecidableEq, Repr

/-- Result of `crawl_site`.  The Python function returns `[]` when robots
rules disallow the URL, `None` on failure, and the body string on success;
the caller (line 109) only tests truthiness. -/
inductive FetchOutcome where
  | disallowed
  | failed
  | page (body : String)
deriving DecidableEq, Repr

/-- The `while attempt < retries` loop of `crawl_site` (lines 65-83).
`responses n` is the outcome of the GET on attempt number `n`; the second
component records the `time.sleep(delay)` calls, in order.  The fuel
argument is `retries - attempt`, which bounds the remaining iterations
since `attempt` grows by one per iteration. -/
def crawlLoop (responses : Nat → HttpResult) (delay : Nat) :
    Nat → Nat → FetchOutcome × List Nat
  | _, 0 => (.failed, [])
  | attempt, fuel + 1 =>
    match responses attempt with
    | .ok body => (.page body, [])
    | .tooMany =>
      let r := crawlLoop responses delay (attempt + 1) fuel
      (r.1, delay :: r.2)
    | .httpError => (.failed, [])
    | .netError => (.failed, [])

/-- Embeds `crawler.crawl_site` (lines 61-83).  `canFetch txt url` models
`RobotFileParser.can_fetch('*', url)` after parsing `txt` (the stdlib
robots parser is an external collaborator, kept abstract).  Note that
`robots_txt and not is_allowed_to_crawl(...)` is false whenever
`robots_txt` is `None` or the empty string, in which case no robots check
happens at all. -/
def crawl_site (canFetch : String → String → Bool) (responses : Nat → HttpResult)
    (url : String) (robots_txt : Option String)
    (retries : Nat := 3) (delay : Nat := 5) : FetchOutcome × List Nat :=
  match robots_txt with
  | some txt =>
    if txt ≠ "" ∧ ¬ canFetch txt url then (.disallowed, [])
    else crawlLoop responses delay 0 retries
  | none => crawlLoop responses delay 0 retries

/-- Embeds `crawler.get_robots_txt` (lines 44-54): one plain GET of
`rootURL(url) + 'robots.txt'` with `raise_for_status`; any exception
yields `None`. -/
def get_robots_txt (robotsResponse : HttpResult) : Option String :=
  match robotsResponse with
  | .ok body => some body
  | _ => none

/-- The truthiness test `if html:` at line 109: only a nonempty body is
handed to the processor queue. -/
def outcomeHtml : FetchOutcome → Option String
  | .page b => if b = "" then none else some b
  | _ => none

/-! ## Link extraction (extract_links, lines 85-95)

`extract_links` is regex-driven:
`re.findall(r'href=["\x27](https?://[^\s"\x27]+|/[^\s"\x27]+|[./\w\-]+\.html?)["\x27]', html)`
followed by `urljoin` and the filter
`re.match(r'https?://[^\s]+(?:\.html?)?$', u)`.
The two concrete patterns are embedded directly as matching functions on
`List Char`, following Python `re` semantics: leftmost scan, alternatives
tried in order, greedy quantifiers with backtracking.  Character classes
are modelled over ASCII (`\s` = space/tab/newline/CR/FF/VT, `\w` =
alphanumeric or underscore), which covers the crawler's inputs. -/

/-- ASCII interpretation of the regex class `\s`. -/
def isSpaceChar (c : Char) : Bool :=
  c = ' ' || c = '\t' || c = '\n' || c = '\r' || c = '\x0b' || c = '\x0c'

/-- A quote character, the class `["\x27]`. -/
def quoteChar (c : Char) : Bool :=
  c = '"' || c = '\''

/-- The class `[^\s"\x27]` used inside the first two alternatives. -/
def hrefBodyChar (c : Char) : Bool :=
  !isSpaceChar c && !quoteChar c

/-- ASCII interpretation of the regex class `\w`. -/
def wordChar (c : Char) : Bool :=
  c.isAlphanum || c = '_'

/-- The class `[./\w\-]` of the third alternative. -/
def relChar (c : Char) : Bool :=
  c = '.' || c = '/' || wordChar c || c = '-'

/-- Alternative 1, `https?://[^\s"\x27]+`, followed by the closing quote
of the surrounding `href` pattern.  The greedy `+` over a class that
excludes quotes stops exactly at the first space/quote/end, and shorter
backtracked matches would be followed by a class character, never a
quote; so the alternative succeeds iff the maximal run is nonempty and
followed by a quote.  Returns the captured group and the number of input
characters consumed including the closing quote. -/
def hrefAlt1 (cs : List Char) : Option (List Char × Nat) :=
  let core (scheme : List Char) (rest : List Char) : Option (List Char × Nat) :=
    let run := rest.takeWhile hrefBodyChar
    match rest.drop run.length with
    | q :: _ =>
      if quoteChar q ∧ 1 ≤ run.length then
        some (scheme ++ run, scheme.length + run.length + 1)
      else none
    | [] => none
  if cs.take 8 = "https://".data then core "https://".data (cs.drop 8)
  else if cs.take 7 = "http://".data then core "http://".data (cs.drop 7)
  else none

/-- Alternative 2, `/[^\s"\x27]+`, followed by the closing quote; same
greedy analysis as `hrefAlt1`. -/
def hrefAlt2 : List Char → Option (List Char × Nat)
  | '/' :: rest =>
    let run := rest.takeWhile hrefBodyChar
    (match rest.drop run.length with
     | q :: _ =>
       if quoteChar q ∧ 1 ≤ run.length then
         some ('/' :: run, run.length + 2)
       else none
     | [] => none)
  | _ => none

/-- The tail `\.html?` of alternative 3 followed by the closing quote;
the optional `l?` is greedy, so `.html` is tried before `.htm`. -/
def hrefAlt3Tail (pre rest : List Char) : Option (List Char × Nat) :=
  let tryL : Option (List Char × Nat) :=
    if rest.take 5 = ".html".data then
      match rest.drop 5 with
      | q :: _ => if quoteChar q then some (pre ++ ".html".data, pre.length + 6) else none
      | [] => none
    else none
  match tryL with
  | some r => some r
  | none =>
    if rest.take 4 = ".htm".data then
      match rest.drop 4 with
      | q :: _ => if quoteChar q then some (pre ++ ".htm".data, pre.length + 5) else none
      | [] => none
    else none

/-- Alternative 3, `[./\w\-]+\.html?`, followed by the closing quote.
The greedy `+` tries the longest class-character run first and backtracks
one character at a time; `pre` is the run consumed so far. -/
def hrefAlt3Go : List Char → List Char → Option (List Char × Nat)
  | pre, [] => if pre = [] then none else hrefAlt3Tail pre []
  | pre, c :: rs =>
    let deeper := if relChar c then hrefAlt3Go (pre ++ [c]) rs else none
    match deeper with
    | some r => some r
    | none => if pre = [] then none else hrefAlt3Tail pre (c :: rs)

/-- The capture group of the href pattern (three alternatives tried in
order) together with its closing quote. -/
def hrefGroup (cs : List Char) : Option (List Char × Nat) :=
  match hrefAlt1 cs with
  | some r => some r
  | none =>
    match hrefAlt2 cs with
    | some r => some r
    | none => hrefAlt3Go [] cs

/-- One attempt of the full pattern `href=["\x27](...)["\x27]` at the
start of `cs`: the literal `href=`, an opening quote, the group, and a
closing quote.  Returns the captured group and the total number of
characters consumed. -/
def matchHrefAt (cs : List Char) : Option (List Char × Nat) :=
  if cs.take 5 = "href=".data then
    match cs.drop 5 with
    | q :: rest1 =>
      if quoteChar q then
        match hrefGroup rest1 with
        | some (g, n) => some (g, 6 + n)
        | none => none
      else none
    | [] => none
  else none

/-- The scan of `re.findall`: try the pattern at each position, emit the
capture and resume after the match on success, advance one character on
failure.  Each step consumes at least one character, so the input length
is enough fuel. -/
def findallHrefGo : Nat → List Char → List (List Char)
  | 0, _ => []
  | _, [] => []
  | fuel + 1, c :: rest =>
    match matchHrefAt (c :: rest) with
    | some (g, n) => g :: findallHrefGo fuel (rest.drop (n - 1))
    | none => findallHrefGo fuel rest

/-- All captures of the href pattern in `cs`. -/
def findallHref (cs : List Char) : List (List Char) :=
  findallHrefGo cs.length cs

/-- Modelled from the spec: the external collaborator
`urllib.parse.urljoin`, which "resolv[es] relative references against
`sourceURL`", restricted to the reference shapes the first regex can
produce: an absolute http/https URL is returned unchanged, a
root-relative reference is joined to the base's scheme and netloc, and
any other reference replaces the last segment of the base's path. -/
def urljoin (base url : String) : String :=
  if url.data.take 7 = "http://".data ∨ url.data.take 8 = "https://".data then url
  else
    match splitSchemeRest base.data with
    | some (sch, rest) =>
      let netloc := rest.takeWhile (fun c => !netlocEnd c)
      let path := rest.drop netloc.length
      if url.data.take 1 = "/".data then
        String.mk (sch ++ "://".data ++ netloc ++ url.data)
      else
        let dir := (path.reverse.dropWhile (fun c => c ≠ '/')).reverse
        let dir := if dir = [] then "/".data else dir
        String.mk (sch ++ "://".data ++ netloc ++ dir ++ url.data)
    | none => url

/-- The optional tail `(?:\.html?)?` immediately before `$` in the filter
pattern of line 94. -/
def filterOptEnd (cs : List Char) : Bool :=
  cs.isEmpty || cs == ".html".data || cs == ".htm".data

/-- The part `[^\s]+(?:\.html?)?$` of the filter pattern: at least one
non-space character, then the optional `.htm`/`.html` tail, then the end
of the string. -/
def filterRun : List Char → Bool
  | [] => false
  | c :: rest => !isSpaceChar c && (filterOptEnd rest || filterRun rest)

/-- The filter `re.match(r'https?://[^\s]+(?:\.html?)?$', u)` of line 94
as a Boolean. -/
def filterMatch (cs : List Char) : Bool :=
  if cs.take 8 = "https://".data then filterRun (cs.drop 8)
  else if cs.take 7 = "http://".data then filterRun (cs.drop 7)
  else false

/-- Embeds `crawler.extract_links` (lines 85-95). -/
def extract_links (html base_url : String) : List String :=
  let urls := (findallHref html.data).map (fun m => urljoin base_url (String.mk m))
  urls.filter (fun u => filterMatch u.data)

/-! ## Shared crawl state (lines 21-29, reset at lines 167-170)

`visited` is a Python set used only through membership and `add`;
`result_dict` and `vote_counts` are dicts in insertion order, modelled as
association lists; `vote_counts` is a `defaultdict(float)`, so an absent
key behaves as `0.0`. -/

structure Shared where
  start_urls : List (Url × Nat)
  visited : List Url
  html_queue : List (Url × String × Nat)
  result_dict : List (Url × List Url)
  vote_counts : List (String × ℚ)
deriving DecidableEq, Repr

/-- Dict lookup `result_dict[url]`. -/
def rdLookup (rd : List (Url × List Url)) (u : Url) : Option (List Url) :=
  (rd.find? (fun p => p.1 == u)).map (fun p => p.2)

/-- Lines 126-127: `if url not in result_dict: result_dict[url] = []`. -/
def rdEnsure (rd : List (Url × List Url)) (u : Url) : List (Url × List Url) :=
  if rd.any (fun p => p.1 == u) then rd else rd ++ [(u, [])]

/-- Line 137: `result_dict[url].append(new_url)`. -/
def rdAppend (rd : List (Url × List Url)) (u t : Url) : List (Url × List Url) :=
  rd.map (fun p => if p.1 == u then (p.1, p.2 ++ [t]) else p)

/-- Line 132: `vote_counts[new_root] += weight` on a `defaultdict(float)`;
an absent key starts at `0.0`, so the stored value is `0.0 + weight =
weight`. -/
def vcAdd (vc : List (String × ℚ)) (r : String) (w : ℚ) : List (String × ℚ) :=
  if vc.any (fun p => p.1 == r) then
    vc.map (fun p => if p.1 == r then (p.1, p.2 + w) else p)
  else vc ++ [(r, w)]

/-- One iteration of the `for new_url in found_urls` loop of
`processor_thread` (lines 129-137): the vote is accumulated
unconditionally, and only when `new_url not in visited and depth + 1 <=
max_depth` are the frontier entry and the `result_dict` edge appended
(both inside the same conditional).  The `with visited_lock` block is one
atomic step of the interleaving model. -/
def processLink (max_depth : Nat) (url : Url) (depth : Nat) (st : Shared) (new_url : Url) :
    Shared :=
  let new_root := get_site_root new_url
  let weight := calculate_vote_weight (get_site_root url) new_root
  let st1 := { st with vote_counts := vcAdd st.vote_counts new_root weight }
  if new_url ∉ st1.visited ∧ depth + 1 ≤ max_depth then
    { st1 with start_urls := st1.start_urls ++ [(new_url, depth + 1)],
               result_dict := rdAppend st1.result_dict url new_url }
  else st1

/-- The complete handling of one `(url, html, depth)` unit by
`processor_thread` (lines 122-137), run to completion. -/
def processUnit (max_depth : Nat) (st : Shared) (url : Url) (html : String) (depth : Nat) :
    Shared :=
  let found_urls := extract_links html url
  let st1 := { st with result_dict := rdEnsure st.result_dict url }
  found_urls.foldl (fun s t => processLink max_depth url depth s t) st1

/-! ## The concurrent crawl as a labelled transition system

`search_all_urls` (lines 165-190) runs several `fetcher_thread` workers
and one `processor_thread` over the shared state.  Each thread is a small
program whose atomic regions (lock-protected blocks and single blocking
calls) become the actions below; a schedule (list of actions) picks one
interleaving.  An action that is not enabled leaves the configuration
unchanged, so every action list denotes a legal partial interleaving.
`fetch url` abstracts the result of `crawl_site(url, robots_txt)` made by
a fetcher, i.e. `(crawl_site canFetch responses url robots).1` for the
per-URL response oracle of the run. -/

inductive FetcherPhase where
  /-- at the top of the `while start_urls` loop (line 99) -/
  | idle
  /-- holding a claimed URL, between line 106 and line 110 -/
  | fetching (url : Url) (depth : Nat)
  /-- the thread has returned -/
  | done
deriving DecidableEq, Repr

inductive ProcPhase where
  /-- blocked on `html_queue.get(timeout=1)` (line 116) -/
  | running
  /-- the `get` timed out; about to test `if not start_urls` (line 118) -/
  | checking
  /-- holding a dequeued unit, with the link targets still to process -/
  | processing (url : Url) (pending : List Url) (depth : Nat)
  /-- the thread has returned -/
  | exited
deriving DecidableEq, Repr

structure Config where
  sh : Shared
  fetchers : List FetcherPhase
  proc : ProcPhase
deriving DecidableEq, Repr

inductive Act where
  /-- fetcher `i`: one pass through lines 99-106 (check, pop, claim) -/
  | fclaim (i : Nat)
  /-- fetcher `i`: the fetch finishes; lines 108-110 -/
  | fdeliver (i : Nat)
  /-- processor: `html_queue.get` returns a unit; lines 116, 122-127 -/
  | pget
  /-- processor: one iteration of the link loop; lines 129-137 -/
  | plink
  /-- processor: the link loop ends; line 139 -/
  | pfinish
  /-- processor: `html_queue.get` times out; line 116-117 -/
  | ptimeout
  /-- processor: the `if not start_urls` test at line 118 -/
  | pcheck
deriving DecidableEq, Repr

/-- Lines 99-106.  The unlocked `while start_urls` test and the locked
re-test collapse into one atomic emptiness check: both exits see an empty
frontier.  Popping, the visited/depth test, and `visited.add` all happen
under `visited_lock`, hence in one step. -/
def fclaimStep (max_depth : Nat) (c : Config) (i : Nat) : Config :=
  match c.fetchers[i]? with
  | some .idle =>
    match c.sh.start_urls with
    | [] => { c with fetchers := c.fetchers.set i .done }
    | (u, d) :: rest =>
      if u ∈ c.sh.visited ∨ d > max_depth then
        { c with sh := { c.sh with start_urls := rest } }
      else
        { c with
            sh := { c.sh with start_urls := rest, visited := c.sh.visited ++ [u] },
            fetchers := c.fetchers.set i (.fetching u d) }
  | _ => c

/-- Lines 108-110: the claimed URL's fetch completes with outcome
`fetch u`; a truthy body is appended to `html_queue`. -/
def fdeliverStep (fetch : Url → FetchOutcome) (c : Config) (i : Nat) : Config :=
  match c.fetchers[i]? with
  | some (.fetching u d) =>
    let c1 := { c with fetchers := c.fetchers.set i .idle }
    match outcomeHtml (fetch u) with
    | some h =>
      { c1 with sh := { c1.sh with html_queue := c1.sh.html_queue ++ [(u, h, d)] } }
    | none => c1
  | _ => c

/-- Lines 116 and 122-127: dequeue a unit, extract its links, and ensure
the `result_dict` entry for the source URL exists. -/
def pgetStep (c : Config) : Config :=
  match c.proc with
  | .running =>
    match c.sh.html_queue with
    | (u, h, d) :: rest =>
      { c with
          sh := { c.sh with html_queue := rest,
                            result_dict := rdEnsure c.sh.result_dict u },
          proc := .processing u (extract_links h u) d }
    | [] => c
  | _ => c

/-- Lines 129-137 for the next pending link target. -/
def plinkStep (max_depth : Nat) (c : Config) : Config :=
  match c.proc with
  | .processing u (t :: ts) d =>
    { c with sh := processLink max_depth u d c.sh t, proc := .processing u ts d }
  | _ => c

/-- Line 139: the unit is finished; back to the `get`. -/
def pfinishStep (c : Config) : Config :=
  match c.proc with
  | .processing _ [] _ => { c with proc := .running }
  | _ => c

/-- Line 116-117: `html_queue.get(timeout=1)` can only raise when the
queue is empty at that moment. -/
def ptimeoutStep (c : Config) : Config :=
  match c.proc with
  | .running => if c.sh.html_queue = [] then { c with proc := .checking } else c
  | _ => c

/-- Line 118: `if not start_urls: break` — an unlocked read of the
frontier, possibly after further deliveries. -/
def pcheckStep (c : Config) : Config :=
  match c.proc with
  | .checking =>
    if c.sh.start_urls = [] then { c with proc := .exited } else { c with proc := .running }
  | _ => c

/-- One atomic action of the interleaved system. -/
def step (fetch : Url → FetchOutcome) (max_depth : Nat) (c : Config) : Act → Config
  | .fclaim i => fclaimStep max_depth c i
  | .fdeliver i => fdeliverStep fetch c i
  | .pget => pgetStep c
  | .plink => plinkStep max_depth c
  | .pfinish => pfinishStep c
  | .ptimeout => ptimeoutStep c
  | .pcheck => pcheckStep c

/-- A schedule of actions, executed in order. -/
def run (fetch : Url → FetchOutcome) (max_depth : Nat) (c : Config) (acts : List Act) :
    Config :=
  acts.foldl (step fetch max_depth) c

/-- The initial configuration built by `search_all_urls` (lines 167-182):
fresh shared state, frontier `[(start_url, 1)]`, `F` fetcher threads, one
processor thread. -/
def initConfig (start_url : Url) (F : Nat) : Config :=
  { sh := { start_urls := [(start_url, 1)], visited := [], html_queue := [],
            result_dict := [], vote_counts := [] },
    fetchers := List.replicate F .idle,
    proc := .running }

/-! ## Basic lemmas about the processor's link handling -/

theorem processLink_visited (m : Nat) (url : Url) (d : Nat) (st : Shared) (t : Url) :
    (processLink m url d st t).visited = st.visited := by
  unfold processLink
  dsimp only
  split <;> rfl

theorem processLink_queue (m : Nat) (url : Url) (d : Nat) (st : Shared) (t : Url) :
    (processLink m url d st t).html_queue = st.html_queue := by
  unfold processLink
  dsimp only
  split <;> rfl

theorem processLink_votes (m : Nat) (url : Url) (d : Nat) (st : Shared) (t : Url) :
    (processLink m url d st t).vote_counts
      = vcAdd st.vote_counts (get_site_root t)
          (calculate_vote_weight (get_site_root url) (get_site_root t)) := by
  unfold processLink
  dsimp only
  split <;> rfl

theorem processLink_followable (m : Nat) (url : Url) (d : Nat) (st : Shared) (t : Url)
    (h : t ∉ st.visited ∧ d + 1 ≤ m) :
    (processLink m url d st t).start_urls = st.start_urls ++ [(t, d + 1)]
    ∧ (processLink m url d st t).result_dict = rdAppend st.result_dict url t := by
  unfold processLink
  dsimp only
  split
  · exact ⟨rfl, rfl⟩
  · next hn => exact absurd h hn

theorem processLink_unfollowable (m : Nat) (url : Url) (d : Nat) (st : Shared) (t : Url)
    (h : ¬ (t ∉ st.visited ∧ d + 1 ≤ m)) :
    (processLink m url d st t).start_urls = st.start_urls
    ∧ (processLink m url d st t).result_dict = st.result_dict := by
  unfold processLink
  dsimp only
  split
  · next hp => exact absurd hp h
  · exact ⟨rfl, rfl⟩

theorem processLink_start_mem (m : Nat) (url : Url) (d : Nat) (st : Shared) (t : Url)
    (p : Url × Nat) (hp : p ∈ (processLink m url d st t).start_urls) :
    p ∈ st.start_urls ∨ (p = (t, d + 1) ∧ d + 1 ≤ m) := by
  unfold processLink at hp
  dsimp only at hp
  split at hp
  · next hc =>
    simp only [List.mem_append, List.mem_singleton] at hp
    rcases hp with hp | hp
    · exact Or.inl hp
    · exact Or.inr ⟨hp, hc.2⟩
  · exact Or.inl hp

/-! ## Depth bounds as an inductive invariant -/

/-- Every depth recorded anywhere in the pipeline — frontier entries,
queued content units, claimed URLs held by fetchers, the unit being
processed — lies in `[1, max_depth]`. -/
def DepthOK (m : Nat) (c : Config) : Prop :=
  (∀ p ∈ c.sh.start_urls, 1 ≤ p.2 ∧ p.2 ≤ m)
  ∧ (∀ q ∈ c.sh.html_queue, 1 ≤ q.2.2 ∧ q.2.2 ≤ m)
  ∧ (∀ u d, FetcherPhase.fetching u d ∈ c.fetchers → 1 ≤ d ∧ d ≤ m)
  ∧ (∀ u ts d, c.proc = ProcPhase.processing u ts d → 1 ≤ d ∧ d ≤ m)

theorem depthOK_fclaim (m : Nat) (c : Config) (i : Nat) (h : DepthOK m c) :
    DepthOK m (fclaimStep m c i) := by
  obtain ⟨h1, h2, h3, h4⟩ := h
  unfold fclaimStep
  split
  case _ =>
    split
    case _ hs =>
      refine ⟨h1, h2, ?_, h4⟩
      intro u d hm
      rcases List.mem_or_eq_of_mem_set hm with hm | hm
      · exact h3 u d hm
      · cases hm
    case _ u d rest hs =>
      split
      · refine ⟨?_, h2, h3, h4⟩
        intro p hp
        exact h1 p (by rw [hs]; exact List.mem_cons_of_mem _ hp)
      case _ hcond =>
        have hd : 1 ≤ d ∧ d ≤ m := by
          have := h1 (u, d) (by rw [hs]; exact List.mem_cons_self _ _)
          push_neg at hcond
          exact ⟨this.1, hcond.2⟩
        refine ⟨?_, h2, ?_, h4⟩
        · intro p hp
          exact h1 p (by rw [hs]; exact List.mem_cons_of_mem _ hp)
        · intro u' d' hm
          rcases List.mem_or_eq_of_mem_set hm with hm | hm
          · exact h3 u' d' hm
          · cases hm
            exact hd
  case _ => exact ⟨h1, h2, h3, h4⟩

theorem depthOK_fdeliver (fetch : Url → FetchOutcome) (m : Nat) (c : Config) (i : Nat)
    (h : DepthOK m c) : DepthOK m (fdeliverStep fetch c i) := by
  obtain ⟨h1, h2, h3, h4⟩ := h
  unfold fdeliverStep
  split
  case _ u d hf =>
    have hd : 1 ≤ d ∧ d ≤ m := h3 u d (List.getElem?_mem hf)
    have hfet : ∀ u' d', FetcherPhase.fetching u' d' ∈ c.fetchers.set i .idle →
        1 ≤ d' ∧ d' ≤ m := by
      intro u' d' hm
      rcases List.mem_or_eq_of_mem_set hm with hm | hm
      · exact h3 u' d' hm
      · cases hm
    split
    · refine ⟨h1, ?_, hfet, h4⟩
      intro q hq
      rcases List.mem_append.mp hq with hq | hq
      · exact h2 q hq
      · rcases List.mem_singleton.mp hq with rfl
        exact hd
    · exact ⟨h1, h2, hfet, h4⟩
  case _ => exact ⟨h1, h2, h3, h4⟩

theorem depthOK_pget (m : Nat) (c : Config) (h : DepthOK m c) : DepthOK m (pgetStep c) := by
  obtain ⟨h1, h2, h3, h4⟩ := h
  unfold pgetStep
  split
  case _ =>
    split
    case _ u hh d rest hq =>
      refine ⟨h1, ?_, h3, ?_⟩
      · intro q hqm
        exact h2 q (by rw [hq]; exact List.mem_cons_of_mem _ hqm)
      · intro u' ts' d' hp
        cases hp
        exact h2 (u, hh, d) (by rw [hq]; exact List.mem_cons_self _ _)
    case _ => exact ⟨h1, h2, h3, h4⟩
  case _ => exact ⟨h1, h2, h3, h4⟩

theorem depthOK_plink (m : Nat) (c : Config) (h : DepthOK m c) :
    DepthOK m (plinkStep m c) := by
  obtain ⟨h1, h2, h3, h4⟩ := h
  unfold plinkStep
  split
  case _ u t ts d hp =>
    have hd : 1 ≤ d ∧ d ≤ m := h4 u (t :: ts) d hp
    refine ⟨?_, ?_, h3, ?_⟩
    · intro p hpm
      rcases processLink_start_mem m u d c.sh t p hpm with hm | hm
      · exact h1 p hm
      · rcases hm with ⟨rfl, hle⟩
        exact ⟨Nat.le_add_left 1 d, hle⟩
    · intro q hq
      rw [processLink_queue] at hq
      exact h2 q hq
    · intro u' ts' d' hpe
      cases hpe
      exact hd
  case _ => exact ⟨h1, h2, h3, h4⟩

theorem depthOK_pfinish (m : Nat) (c : Config) (h : DepthOK m c) :
    DepthOK m (pfinishStep c) := by
  obtain ⟨h1, h2, h3, h4⟩ := h
  unfold pfinishStep
  split
  case _ => exact ⟨h1, h2, h3, fun u ts d hp => by cases hp⟩
  case _ => exact ⟨h1, h2, h3, h4⟩

theorem depthOK_ptimeout (m : Nat) (c : Config) (h : DepthOK m c) :
    DepthOK m (ptimeoutStep c) := by
  obtain ⟨h1, h2, h3, h4⟩ := h
  unfold ptimeoutStep
  split
  case _ =>
    split
    · exact ⟨h1, h2, h3, fun u ts d hp => by cases hp⟩
    · exact ⟨h1, h2, h3, h4⟩
  case _ => exact ⟨h1, h2, h3, h4⟩

theorem depthOK_pcheck (m : Nat) (c : Config) (h : DepthOK m c) :
    DepthOK m (pcheckStep c) := by
  obtain ⟨h1, h2, h3, h4⟩ := h
  unfold pcheckStep
  split
  case _ =>
    split
    · exact ⟨h1, h2, h3, fun u ts d hp => by cases hp⟩
    · exact ⟨h1, h2, h3, fun u ts d hp => by cases hp⟩
  case _ => exact ⟨h1, h2, h3, h4⟩

theorem depthOK_step (fetch : Url → FetchOutcome) (m : Nat) (c : Config) (a : Act)
    (h : DepthOK m c) : DepthOK m (step fetch m c a) := by
  cases a with
  | fclaim i => exact depthOK_fclaim m c i h
  | fdeliver i => exact depthOK_fdeliver fetch m c i h
  | pget => exact depthOK_pget m c h
  | plink => exact depthOK_plink m c h
  | pfinish => exact depthOK_pfinish m c h
  | ptimeout => exact depthOK_ptimeout m c h
  | pcheck => exact depthOK_pcheck m c h

theorem depthOK_run (fetch : Url → FetchOutcome) (m : Nat) (c : Config) (acts : List Act)
    (h : DepthOK m c) : DepthOK m (run fetch m c acts) := by
  induction acts generalizing c with
  | nil => exact h
  | cons a as ih => exact ih (step fetch m c a) (depthOK_step fetch m c a h)

theorem depthOK_init (start : Url) (F m : Nat) (hm : 1 ≤ m) :
    DepthOK m (initConfig start F) := by
  refine ⟨?_, ?_, ?_, ?_⟩
  · intro p hp
    rcases List.mem_singleton.mp hp with rfl
    exact ⟨le_refl 1, hm⟩
  · intro q hq
    cases hq
  · intro u d hm'
    rcases List.eq_of_mem_replicate hm' with h
    cases h
  · intro u ts d hp
    cases hp

/-! ## The visited set: monotone growth and at-most-once claims -/

theorem visited_mono_step (fetch : Url → FetchOutcome) (m : Nat) (c : Config) (a : Act)
    (u : Url) (h : u ∈ c.sh.visited) : u ∈ (step fetch m c a).sh.visited := by
  cases a with
  | fclaim i =>
    simp only [step]
    unfold fclaimStep
    split
    · split
      · exact h
      · split
        · exact h
        · exact List.mem_append_left _ h
    · exact h
  | fdeliver i =>
    simp only [step]
    unfold fdeliverStep
    split
    · split <;> exact h
    · exact h
  | pget =>
    simp only [step]
    unfold pgetStep
    split
    · split <;> exact h
    · exact h
  | plink =>
    simp only [step]
    unfold plinkStep
    split
    · rw [processLink_visited]; exact h
    · exact h
  | pfinish =>
    simp only [step]
    unfold pfinishStep
    split <;> exact h
  | ptimeout =>
    simp only [step]
    unfold ptimeoutStep
    split
    · split <;> exact h
    · exact h
  | pcheck =>
    simp only [step]
    unfold pcheckStep
    split
    · split <;> exact h
    · exact h

theorem visited_mono_run (fetch : Url → FetchOutcome) (m : Nat) (c : Config)
    (acts : List Act) (u : Url) (h : u ∈ c.sh.visited) :
    u ∈ (run fetch m c acts).sh.visited := by
  induction acts generalizing c with
  | nil => exact h
  | cons a as ih => exact ih (step fetch m c a) (visited_mono_step fetch m c a u h)

/-- The number of steps of the schedule at which `u` newly enters the
visited set, i.e. at which some fetcher successfully claims `u`. -/
def claimCount (fetch : Url → FetchOutcome) (m : Nat) (u : Url) :
    Config → List Act → Nat
  | _, [] => 0
  | c, a :: as =>
    (if u ∉ c.sh.visited ∧ u ∈ (step fetch m c a).sh.visited then 1 else 0)
      + claimCount fetch m u (step fetch m c a) as

theorem claimCount_eq_zero_of_mem (fetch : Url → FetchOutcome) (m : Nat) (u : Url)
    (c : Config) (acts : List Act) (h : u ∈ c.sh.visited) :
    claimCount fetch m u c acts = 0 := by
  induction acts generalizing c with
  | nil => rfl
  | cons a as ih =>
    unfold claimCount
    rw [if_neg (fun hc => hc.1 h), ih (step fetch m c a) (visited_mono_step fetch m c a u h)]

theorem claimCount_le_one (fetch : Url → FetchOutcome) (m : Nat) (u : Url)
    (c : Config) (acts : List Act) : claimCount fetch m u c acts ≤ 1 := by
  induction acts generalizing c with
  | nil => exact Nat.zero_le 1
  | cons a as ih =>
    unfold claimCount
    split
    case _ hflip =>
      rw [claimCount_eq_zero_of_mem fetch m u (step fetch m c a) as hflip.2]
    case _ =>
      simpa using ih (step fetch m c a)

theorem claimCount_ge_one (fetch : Url → FetchOutcome) (m : Nat) (u : Url)
    (c : Config) (acts : List Act) (h0 : u ∉ c.sh.visited)
    (h1 : u ∈ (run fetch m c acts).sh.visited) : 1 ≤ claimCount fetch m u c acts := by
  induction acts generalizing c with
  | nil => exact absurd h1 h0
  | cons a as ih =>
    unfold claimCount
    by_cases hm : u ∈ (step fetch m c a).sh.visited
    · rw [if_pos ⟨h0, hm⟩]
      exact Nat.le_add_right 1 _
    · rw [if_neg (fun hc => hm hc.2)]
      simpa using ih (step fetch m c a) hm h1

/-- A claim attempt on `u`: a fetcher at the top of its loop executes
lines 99-106 while `u` is at the head of the frontier. -/
def isAttempt (c : Config) (i : Nat) (u : Url) : Prop :=
  c.fetchers[i]? = some FetcherPhase.idle
  ∧ ∃ d rest, c.sh.start_urls = (u, d) :: rest

/-- Some step of the schedule is a claim attempt on `u`. -/
def attemptIn (fetch : Url → FetchOutcome) (m : Nat) (u : Url) :
    Config → List Act → Prop
  | _, [] => False
  | c, a :: as =>
    (∃ i, a = Act.fclaim i ∧ isAttempt c i u) ∨ attemptIn fetch m u (step fetch m c a) as

/-- After a claim attempt on `u` whose frontier entry respects the depth
bound, `u` is in the visited set: either it already was, or the
check-and-insert of lines 104-106 adds it. -/
theorem attempt_step_mem (fetch : Url → FetchOutcome) (m : Nat) (c : Config) (i : Nat)
    (u : Url) (hA : isAttempt c i u) (hD : DepthOK m c) :
    u ∈ (step fetch m c (Act.fclaim i)).sh.visited := by
  obtain ⟨hf, d, rest, hs⟩ := hA
  by_cases hv : u ∈ c.sh.visited
  · exact visited_mono_step fetch m c (Act.fclaim i) u hv
  · have hd : d ≤ m := (hD.1 (u, d) (by rw [hs]; exact List.mem_cons_self _ _)).2
    simp only [step]
    unfold fclaimStep
    rw [hf, hs]
    simp only
    rw [if_neg (by push_neg; exact ⟨hv, by omega⟩)]
    exact List.mem_append_right _ (List.mem_singleton.mpr rfl)

theorem attempt_run_mem (fetch : Url → FetchOutcome) (m : Nat) (u : Url)
    (c : Config) (acts : List Act) (hD : DepthOK m c)
    (hA : attemptIn fetch m u c acts) : u ∈ (run fetch m c acts).sh.visited := by
  induction acts generalizing c with
  | nil => exact absurd hA (by simp [attemptIn])
  | cons a as ih =>
    unfold attemptIn at hA
    rcases hA with ⟨i, rfl, hi⟩ | hA
    · exact visited_mono_run fetch m _ as u (attempt_step_mem fetch m c i u hi hD)
    · exact ih (step fetch m c a) (depthOK_step fetch m c a hD) hA

theorem run_append (fetch : Url → FetchOutcome) (m : Nat) (c : Config)
    (pre post : List Act) :
    run fetch m c (pre ++ post) = run fetch m (run fetch m c pre) post :=
  List.foldl_append _ _ pre post

/-! ## Fixtures shared by the concrete claim instances -/

/-- Fetch oracle for the termination-race schedule: only the start page
exists, and it contains no links. -/
def raceFetch : Url → FetchOutcome :=
  fun u => if u = "https://a.com/" then FetchOutcome.page "<p>hi</p>" else FetchOutcome.failed

/-- The interleaving that loses a fetched page: the sole fetcher claims
the start URL (emptying the frontier); the processor's `get` times out
while the fetch is still in flight; the fetch then delivers its unit; the
fetcher sees an empty frontier and exits; the processor's line-118 check
sees an empty frontier and exits, with the delivered unit still queued. -/
def raceSchedule : List Act :=
  [Act.fclaim 0, Act.ptimeout, Act.fdeliver 0, Act.fclaim 0, Act.pcheck]

def raceFinal : Config :=
  run raceFetch 1 (initConfig "https://a.com/" 1) raceSchedule

/-! ## Claim theorems -/

/-- C3 (code_bug): on a one-page, link-free site with `max_depth = 1`
there is a legal interleaving after which every thread has exited (and no
action can change the configuration any more), the start URL has been
claimed and successfully fetched — its content sits delivered in
`html_queue` — yet `result_dict` has no entry for it.  The spec requires
that at termination ResultGraph contain an entry for every fetched URL;
the processor's exit test (line 118) checks only frontier emptiness, not
queue emptiness or in-flight work, so the entry is lost. -/
theorem c3_termination_race :
    raceFinal.proc = ProcPhase.exited
    ∧ raceFinal.fetchers = [FetcherPhase.done]
    ∧ raceFinal.sh.visited = ["https://a.com/"]
    ∧ raceFinal.sh.html_queue = [("https://a.com/", "<p>hi</p>", 1)]
    ∧ rdLookup raceFinal.sh.result_dict "https://a.com/" = none
    ∧ ∀ a : Act, step raceFetch 1 raceFinal a = raceFinal := by
  refine ⟨rfl, rfl, rfl, rfl, rfl, ?_⟩
  intro a
  cases a with
  | fclaim i => cases i <;> rfl
  | fdeliver i => cases i <;> rfl
  | pget => rfl
  | plink => rfl
  | pfinish => rfl
  | ptimeout => rfl
  | pcheck => rfl

/-- C4 (code_bug): the equal-roots and unrelated-roots weights are as
claimed, but the subdomain case yields `1`, not `0.25`: the
`endswith("." + root)` test compares the full root strings including
their `https://` scheme, so one scheme-prefixed root is never a
dot-boundary suffix of another.  On scheme-less strings the same test
does yield `0.25`, showing the dot-boundary check itself is the intended
one. -/
theorem c4_vote_weighting_values :
    calculate_vote_weight "https://a.com" "https://a.com" = 0.1
    ∧ calculate_vote_weight "https://shop.example.com" "https://example.com" = 1
    ∧ calculate_vote_weight "https://example.com" "https://shop.example.com" = 1
    ∧ calculate_vote_weight "https://a.com" "https://b.com" = 1
    ∧ calculate_vote_weight "shop.example.com" "example.com" = 0.25
    ∧ calculate_vote_weight "example.com" "shop.example.com" = 0.25 :=
  ⟨rfl, rfl, rfl, rfl, rfl, rfl⟩

/-- C5 (corrected, amended claim): a transient network error is not
retried.  `requests.get` raising (connection failure, timeout) lands in
the `except RequestException` handler, which returns `None` at once: the
fetch is abandoned on the first such error with no backoff sleep, no
matter how many retry attempts remain.  Only 429 responses consume retry
attempts. -/
theorem c5_transient_error_aborts (canFetch : String → String → Bool)
    (responses : Nat → HttpResult) (url : String) (retries delay : Nat)
    (hr : 1 ≤ retries) (h0 : responses 0 = HttpResult.netError) :
    crawl_site canFetch responses url none retries delay = (FetchOutcome.failed, []) := by
  obtain ⟨n, rfl⟩ : ∃ n, retries = n + 1 := ⟨retries - 1, by omega⟩
  unfold crawl_site crawlLoop
  rw [h0]

/-- Witness for `c5_transient_error_aborts`: the first attempt fails with
a connection error, every later attempt would have succeeded, yet the
fetch gives up immediately with no delay. -/
theorem c5_transient_error_aborts_witness :
    (fun n => if n = 0 then HttpResult.netError else HttpResult.ok "recovered") 1
        = HttpResult.ok "recovered"
    ∧ crawl_site (fun _ _ => true)
        (fun n => if n = 0 then HttpResult.netError else HttpResult.ok "recovered")
        "https://a.com/" none 3 5 = (FetchOutcome.failed, []) :=
  ⟨rfl, c5_transient_error_aborts (fun _ _ => true)
    (fun n => if n = 0 then HttpResult.netError else HttpResult.ok "recovered")
    "https://a.com/" 3 5 (by omega) rfl⟩

/-- C5 counterexample: under the claim, a first-attempt connection error
would consume one of the 3 attempts and the fetch would go on to succeed
on a later attempt; the code instead returns failure immediately, with an
empty sleep log, even though attempt 1 would have returned `200`. -/
theorem c5_counterexample :
    crawl_site (fun _ _ => true)
        (fun n => if n = 0 then HttpResult.netError else HttpResult.ok "recovered")
        "https://a.com/" none 3 5 = (FetchOutcome.failed, [])
    ∧ (FetchOutcome.failed, ([] : List Nat))
        ≠ (FetchOutcome.page "recovered", ([5] : List Nat)) := by
  exact ⟨rfl, by decide⟩

/-- C6 (corrected, amended claim): when the robots.txt fetch fails,
`get_robots_txt` returns `None`; `None` is what the whole run then uses,
and `crawl_site` skips the robots check entirely for a `None`
`robots_txt`, so every URL is treated as allowed — the opposite of the
claimed deny-by-default, and there is no configuration to opt out:
`crawl_site`'s outcome with `robots_txt = None` is independent of any
robots rules. -/
theorem c6_robots_failure_allows (canFetch : String → String → Bool)
    (responses : Nat → HttpResult) (url : String) (retries delay : Nat) :
    get_robots_txt HttpResult.netError = none
    ∧ get_robots_txt HttpResult.httpError = none
    ∧ crawl_site canFetch responses url none retries delay
        = crawlLoop responses delay 0 retries :=
  ⟨rfl, rfl, rfl⟩

/-- C6 counterexample: after a robots fetch failure, a URL on the failed
site root is fetched successfully even under rules that would deny every
URL — it is not treated as denied, and no opt-in was involved. -/
theorem c6_counterexample :
    get_robots_txt HttpResult.netError = none
    ∧ crawl_site (fun _ _ => false) (fun _ => HttpResult.ok "<p>page</p>")
        "https://a.com/private" none 3 5 = (FetchOutcome.page "<p>page</p>", []) :=
  ⟨rfl, rfl⟩

/-- C7 (code_bug): the final filter of `extract_links` (line 94) is
`https?://[^\s]+(?:\.html?)?$`, whose greedy `[^\s]+` absorbs any
extension before the optional `.htm`/`.html` tail matches empty, so any
space-free absolute http(s) URL passes — including images.  A page
linking to `https://a.com/img.jpg` gets that URL returned, contradicting
the claim that non-page resources are never returned.  (The absolute-only
part of the contract does hold: a `mailto:`/`ftp:` reference yields
nothing.) -/
theorem c7_extract_links_nonpage :
    extract_links "<a href=\"https://a.com/img.jpg\">" "https://a.com/"
        = ["https://a.com/img.jpg"]
    ∧ filterMatch ("https://a.com/img.jpg".data) = true
    ∧ extract_links "<a href=\"mailto:x@y.com\"><a href=\"ftp://f.com/a\">" "https://a.com/"
        = [] :=
  ⟨rfl, rfl, rfl⟩

/-- C8 (confirmed): with responses 429, 429, 200 under the default
3-attempt budget, `crawl_site` sleeps the default 5 seconds before each
of the two re-attempts and returns the third response's body; processing
the fetched unit records the URL exactly once as a `result_dict` key, and
processing it again still leaves exactly one key. -/
theorem c8_retry_backoff_scenario :
    crawl_site (fun _ _ => true)
        (fun n => if n ≤ 1 then HttpResult.tooMany else HttpResult.ok "<p>ok</p>")
        "https://a.com/x" none 3 5 = (FetchOutcome.page "<p>ok</p>", [5, 5])
    ∧ (((processUnit 3
          { start_urls := [], visited := ["https://a.com/x"], html_queue := [],
            result_dict := [], vote_counts := [] }
          "https://a.com/x" "<p>ok</p>" 1).result_dict.map Prod.fst).count "https://a.com/x")
        = 1
    ∧ (((processUnit 3
          (processUnit 3
            { start_urls := [], visited := ["https://a.com/x"], html_queue := [],
              result_dict := [], vote_counts := [] }
            "https://a.com/x" "<p>ok</p>" 1)
          "https://a.com/x" "<p>ok</p>" 1).result_dict.map Prod.fst).count "https://a.com/x")
        = 1 :=
  ⟨rfl, rfl, rfl⟩

/-- C1 counterexample: the end-to-end fixture of the claim.  The start
page (depth 1, `max_depth` 1) links to `https://a.com/x` and
`https://b.com/y`; both links are extracted, but because `depth + 1 = 2 >
max_depth` the conditional at line 135 skips the `result_dict` append for
both, so ResultGraph of the start URL is `[]`, not the claimed two-element
list. -/
theorem c1_counterexample :
    extract_links "<a href=\"https://a.com/x\"> <a href=\"https://b.com/y\">" "https://a.com/"
        = ["https://a.com/x", "https://b.com/y"]
    ∧ (processUnit 1
        { start_urls := [], visited := ["https://a.com/"], html_queue := [],
          result_dict := [], vote_counts := [] }
        "https://a.com/" "<a href=\"https://a.com/x\"> <a href=\"https://b.com/y\">" 1).result_dict
        = [("https://a.com/", [])]
    ∧ [("https://a.com/", ([] : List Url))]
        ≠ [("https://a.com/", ["https://a.com/x", "https://b.com/y"])] :=
  ⟨rfl, rfl, by decide⟩

/-- C1 (corrected, amended claim): vote accumulation is indeed
unconditional — every extracted link adds its weight to
`vote_counts[SiteRoot(target)]` (line 132 sits before the conditional) —
but the `result_dict` edge append at line 137 happens only inside the
`new_url not in visited and depth + 1 <= max_depth` conditional, so an
already-visited or depth-exhausted target is never recorded as an edge.
On the fixture (maxDepth 1), the start URL's edge list is therefore `[]`
while the votes are still 0.1 for `https://a.com` and 1.0 for
`https://b.com`. -/
theorem c1_votes_unconditional_edges_conditional :
    (∀ (m : Nat) (url : Url) (d : Nat) (st : Shared) (t : Url),
      (processLink m url d st t).vote_counts
        = vcAdd st.vote_counts (get_site_root t)
            (calculate_vote_weight (get_site_root url) (get_site_root t)))
    ∧ (∀ (m : Nat) (url : Url) (d : Nat) (st : Shared) (t : Url),
        ¬ (t ∉ st.visited ∧ d + 1 ≤ m) →
        (processLink m url d st t).result_dict = st.result_dict)
    ∧ (processUnit 1
        { start_urls := [], visited := ["https://a.com/"], html_queue := [],
          result_dict := [], vote_counts := [] }
        "https://a.com/" "<a href=\"https://a.com/x\"> <a href=\"https://b.com/y\">" 1).result_dict
        = [("https://a.com/", [])]
    ∧ (processUnit 1
        { start_urls := [], visited := ["https://a.com/"], html_queue := [],
          result_dict := [], vote_counts := [] }
        "https://a.com/" "<a href=\"https://a.com/x\"> <a href=\"https://b.com/y\">" 1).vote_counts
        = [("https://a.com", 0.1), ("https://b.com", 1)] := by
  refine ⟨?_, ?_, rfl, rfl⟩
  · intro m url d st t
    exact processLink_votes m url d st t
  · intro m url d st t h
    exact (processLink_unfollowable m url d st t h).2

/-- Witness for `c1_votes_unconditional_edges_conditional`: the
conditional-edge conjunct applied to a depth-exhausted target. -/
theorem c1_votes_unconditional_edges_conditional_witness :
    ¬ (("https://b.com/y" : Url) ∉
          ({ start_urls := [], visited := ["https://a.com/"], html_queue := [],
             result_dict := [("https://a.com/", [])], vote_counts := [] } : Shared).visited
        ∧ 1 + 1 ≤ 1)
    ∧ (processLink 1 "https://a.com/" 1
        { start_urls := [], visited := ["https://a.com/"], html_queue := [],
          result_dict := [("https://a.com/", [])], vote_counts := [] }
        "https://b.com/y").result_dict = [("https://a.com/", [])] :=
  ⟨by decide,
   c1_votes_unconditional_edges_conditional.2.1 1 "https://a.com/" 1
     { start_urls := [], visited := ["https://a.com/"], html_queue := [],
       result_dict := [("https://a.com/", [])], vote_counts := [] }
     "https://b.com/y" (by decide)⟩

/-- C10 (confirmed): for a target `t` extracted from a processed unit
`(url, content, depth)`, the edge `t` is appended to
`result_dict[url]` exactly under the condition `t ∉ visited ∧ depth + 1 ≤
max_depth`, and under that same condition — in the same atomic
`visited_lock` block — `(t, depth + 1)` is appended to the frontier;
under the negated condition neither list changes.  So every URL appearing
in an edge list was scheduled for fetching at the moment it was
recorded. -/
theorem c10_edge_iff_enqueued (m : Nat) (url : Url) (d : Nat) (st : Shared) (t : Url) :
    (t ∉ st.visited ∧ d + 1 ≤ m →
      (processLink m url d st t).result_dict = rdAppend st.result_dict url t
      ∧ (processLink m url d st t).start_urls = st.start_urls ++ [(t, d + 1)])
    ∧ (¬ (t ∉ st.visited ∧ d + 1 ≤ m) →
      (processLink m url d st t).result_dict = st.result_dict
      ∧ (processLink m url d st t).start_urls = st.start_urls) := by
  constructor
  · intro h
    have := processLink_followable m url d st t h
    exact ⟨this.2, this.1⟩
  · intro h
    have := processLink_unfollowable m url d st t h
    exact ⟨this.2, this.1⟩

/-- Witness for `c10_edge_iff_enqueued`: a fresh target within the depth
budget is simultaneously recorded as an edge and enqueued at `depth+1`. -/
theorem c10_edge_iff_enqueued_witness :
    (("https://b.com/y" : Url) ∉
        ({ start_urls := [], visited := ["https://a.com/"], html_queue := [],
           result_dict := [("https://a.com/", [])], vote_counts := [] } : Shared).visited
      ∧ 1 + 1 ≤ 2)
    ∧ (processLink 2 "https://a.com/" 1
        { start_urls := [], visited := ["https://a.com/"], html_queue := [],
          result_dict := [("https://a.com/", [])], vote_counts := [] }
        "https://b.com/y").result_dict
        = rdAppend [("https://a.com/", [])] "https://a.com/" "https://b.com/y"
    ∧ (processLink 2 "https://a.com/" 1
        { start_urls := [], visited := ["https://a.com/"], html_queue := [],
          result_dict := [("https://a.com/", [])], vote_counts := [] }
        "https://b.com/y").start_urls = [] ++ [("https://b.com/y", 1 + 1)] := by
  refine ⟨by decide, ?_⟩
  exact (c10_edge_iff_enqueued 2 "https://a.com/" 1
    { start_urls := [], visited := ["https://a.com/"], html_queue := [],
      result_dict := [("https://a.com/", [])], vote_counts := [] }
    "https://b.com/y").1 (by decide)

/-- C2 (confirmed): with any number of fetcher threads and any
interleaving, a URL newly enters the visited set at most once per run
(the check-and-insert of lines 103-106 is one atomic step under
`visited_lock`); if any claim attempt on `u` occurs in the schedule then
exactly one such entry happens, so exactly one claimer succeeds and `u`
is dispatched for fetching exactly once; and membership in the visited
set is permanent for the remainder of the run. -/
theorem c2_at_most_once_dispatch (fetch : Url → FetchOutcome) (m F : Nat)
    (start u : Url) (acts : List Act) (hm : 1 ≤ m) :
    claimCount fetch m u (initConfig start F) acts ≤ 1
    ∧ (attemptIn fetch m u (initConfig start F) acts →
        claimCount fetch m u (initConfig start F) acts = 1)
    ∧ (∀ pre post : List Act,
        u ∈ (run fetch m (initConfig start F) pre).sh.visited →
        u ∈ (run fetch m (initConfig start F) (pre ++ post)).sh.visited) := by
  refine ⟨claimCount_le_one fetch m u _ acts, ?_, ?_⟩
  · intro hA
    have h0 : u ∉ (initConfig start F).sh.visited := by
      intro h
      cases h
    have hmem := attempt_run_mem fetch m u _ acts (depthOK_init start F m hm) hA
    exact Nat.le_antisymm (claimCount_le_one fetch m u _ acts)
      (claimCount_ge_one fetch m u _ acts h0 hmem)
  · intro pre post hpre
    rw [run_append]
    exact visited_mono_run fetch m _ post u hpre

/-- Witness for `c2_at_most_once_dispatch`: one fetcher, one frontier
entry, a schedule whose first action is a claim attempt on the start URL;
the claim count over the schedule is exactly one even though a second
claim attempt follows. -/
theorem c2_at_most_once_dispatch_witness :
    claimCount (fun _ => FetchOutcome.failed) 1 "https://a.com/"
        (initConfig "https://a.com/" 1) [Act.fclaim 0, Act.fclaim 0] ≤ 1
    ∧ (attemptIn (fun _ => FetchOutcome.failed) 1 "https://a.com/"
          (initConfig "https://a.com/" 1) [Act.fclaim 0, Act.fclaim 0] →
        claimCount (fun _ => FetchOutcome.failed) 1 "https://a.com/"
          (initConfig "https://a.com/" 1) [Act.fclaim 0, Act.fclaim 0] = 1)
    ∧ (∀ pre post : List Act,
        "https://a.com/" ∈
          (run (fun _ => FetchOutcome.failed) 1 (initConfig "https://a.com/" 1) pre).sh.visited →
        "https://a.com/" ∈
          (run (fun _ => FetchOutcome.failed) 1 (initConfig "https://a.com/" 1)
            (pre ++ post)).sh.visited) :=
  c2_at_most_once_dispatch (fun _ => FetchOutcome.failed) 1 1
    "https://a.com/" "https://a.com/" [Act.fclaim 0, Act.fclaim 0] (by omega)

/-- C9 (confirmed): the seed enters the frontier at depth 1, and for any
fetch oracle, any number of fetchers and any interleaving with
`max_depth ≥ 1`, every entry of the frontier in every reachable
configuration satisfies `1 ≤ depth ≤ max_depth` — a discovered target is
enqueued at `depth + 1` only under the `depth + 1 ≤ max_depth` guard of
line 135, so no entry ever exceeds the bound. -/
theorem c9_depth_bound (fetch : Url → FetchOutcome) (start : Url) (m F : Nat)
    (acts : List Act) (hm : 1 ≤ m) :
    (initConfig start F).sh.start_urls = [(start, 1)]
    ∧ ∀ p ∈ (run fetch m (initConfig start F) acts).sh.start_urls,
        1 ≤ p.2 ∧ p.2 ≤ m :=
  ⟨rfl, (depthOK_run fetch m _ acts (depthOK_init start F m hm)).1⟩

/-- Witness for `c9_depth_bound`: a two-page chain crawled at
`max_depth = 2`; after claiming, delivering, and fully processing the
start page, the frontier holds the discovered target at depth 2, within
bounds. -/
theorem c9_depth_bound_witness :
    (initConfig "https://a.com/" 1).sh.start_urls = [("https://a.com/", 1)]
    ∧ ∀ p ∈ (run (fun u => if u = "https://a.com/"
          then FetchOutcome.page "<a href=\"https://b.com/y\">" else FetchOutcome.failed) 2
        (initConfig "https://a.com/" 1)
        [Act.fclaim 0, Act.fdeliver 0, Act.pget, Act.plink, Act.pfinish]).sh.start_urls,
        1 ≤ p.2 ∧ p.2 ≤ 2 :=
  c9_depth_bound (fun u => if u = "https://a.com/"
      then FetchOutcome.page "<a href=\"https://b.com/y\">" else FetchOutcome.failed)
    "https://a.com/" 2 1
    [Act.fclaim 0, Act.fdeliver 0, Act.pget, Act.plink, Act.pfinish] (by omega)
